import Mathlib

/-!
Verification of the AVR disassembler core in `src/disasm.c` (avrdude's
`disasm.c`, derived from avrdisas).

Modelling conventions:
* C byte buffers (`const char *Bitstream`) are modelled as total functions
  `Nat → Nat`; the C code extracts single bits with shift/mask, so only the
  low 8 bits of each byte value matter and the signed-char representation is
  irrelevant for bits 0..7.
* The global register scratch `cx->dis_regs[256]` is modelled as a function
  `Char → Nat` threaded explicitly through `Match_Opcode`.
* Pattern strings keep their C representation (`String`); spaces are
  cosmetic exactly as in the C helpers `Get_Bitmask_Length` and
  `Get_From_Bitmask`.
* `qsort` with the `Comparison` comparator is modelled by an insertion sort
  over the relation "`Comparison a b ≤ 0`", which realises the qsort
  postcondition (output ordered by the comparator); tie order of `qsort`
  itself is unspecified by the C standard.
* The external collaborators (tag-file provider, render callbacks, the
  `avr_opcodes` table from libavrdude) enter as parameters.
-/

/-- The significant (non-space) characters of a bit pattern, in order.
This is the character sequence that `Get_Bitmask_Length` counts and
`Get_From_Bitmask` indexes into. -/
def sigChars (Bitmask : String) : List Char :=
  Bitmask.toList.filter (fun c => decide (¬ c = ' '))

/-- Embeds `Get_Bitmask_Length` (disasm.c:103): the number of
non-space characters of the pattern. -/
def Get_Bitmask_Length (Bitmask : String) : Nat :=
  (sigChars Bitmask).length

/-- Loop of `Get_From_Bitmask` (disasm.c:121): scan the pattern, skip
spaces, return the character at significant index `GetBit`; the C code
counts `Cnt` up to `GetBit`, modelled here by counting down. -/
def Get_From_Bitmask_go : List Char → Nat → Char
  | [], _ => '?'
  | c :: rest, GetBit =>
    if ¬ c = ' ' then
      if GetBit = 0 then c else Get_From_Bitmask_go rest (GetBit - 1)
    else
      Get_From_Bitmask_go rest GetBit

/-- Embeds `Get_From_Bitmask` (disasm.c:121): the significant pattern
character at byte `Byte`, bit `Bit` (i.e. significant index `Byte*8 + Bit`),
or `'?'` when out of range. -/
def Get_From_Bitmask (Bitmask : String) (Byte Bit : Nat) : Char :=
  Get_From_Bitmask_go Bitmask.toList (Byte * 8 + Bit)

/-- Embeds `Clear_Registers` (disasm.c:114): reset all 256 field
accumulators to zero. -/
def Clear_Registers (_regs : Char → Nat) : Char → Nat :=
  fun _ => 0

/-- The stream bit consulted for significant pattern position `i` by
`Match_Opcode` (disasm.c:170-175): byte `(i/8) XOR 1`, bit `7 - i%8`. -/
def streamBit (Bitstream : Nat → Nat) (i : Nat) : Nat :=
  (Bitstream ((i / 8) ^^^ 1) >>> (7 - i % 8)) &&& 1

/-- Loop body of `Match_Opcode` (disasm.c:166-202), by recursion on the
number of remaining significant positions (`steps`), carrying the current
position `i` and the register scratch. Returns the C result (1 = match,
0 = no match) together with the final scratch. -/
def Match_loop (Bitmask : String) (Bitstream : Nat → Nat) :
    Nat → Nat → (Char → Nat) → Nat × (Char → Nat)
  | 0, _, regs => (1, regs)
  | steps + 1, i, regs =>
    let Byte_Mask := i / 8
    let Bit_Mask := i % 8
    let Byte_Stream := (i / 8) ^^^ 1
    let Bit_Stream := 7 - i % 8
    let Mask_Val := Get_From_Bitmask Bitmask Byte_Mask Bit_Mask
    let Stream_Val := (Bitstream Byte_Stream >>> Bit_Stream) &&& 1
    if Mask_Val = '0' ∨ Mask_Val = '1' then
      if Mask_Val = '0' then
        if Stream_Val = 1 then (0, regs)
        else Match_loop Bitmask Bitstream steps (i + 1) regs
      else
        if Stream_Val = 0 then (0, regs)
        else Match_loop Bitmask Bitstream steps (i + 1) regs
    else
      Match_loop Bitmask Bitstream steps (i + 1)
        (fun c => if c = Mask_Val then (regs Mask_Val <<< 1) ||| Stream_Val else regs c)

/-- Embeds `Match_Opcode` (disasm.c:156): clear the register scratch
(`Clear_Registers`), then walk all `Get_Bitmask_Length` significant
positions. -/
def Match_Opcode (Bitmask : String) (Bitstream : Nat → Nat) (regs : Char → Nat) :
    Nat × (Char → Nat) :=
  Match_loop Bitmask Bitstream (Get_Bitmask_Length Bitmask) 0 (Clear_Registers regs)

/-- Loop of `Compare_Opcode` (disasm.c:58-81) over the pattern characters,
with the running index `i`. A character outside `{x,1,0}` is rejected
(the C code reports "Invalid Bitmask!" to stderr and returns 0). -/
def Compare_Opcode_go (Bitstream : Nat → Nat) : List Char → Nat → Nat
  | [], _ => 1
  | c :: rest, i =>
    if ¬ c = 'x' ∧ ¬ c = '1' ∧ ¬ c = '0' then 0
    else if c = 'x' then Compare_Opcode_go Bitstream rest (i + 1)
    else
      let Bit := (Bitstream (i / 8) >>> (7 - i % 8)) &&& 1
      if c = '1' ∧ Bit = 1 then Compare_Opcode_go Bitstream rest (i + 1)
      else if c = '0' ∧ Bit = 0 then Compare_Opcode_go Bitstream rest (i + 1)
      else 0

/-- Embeds `Compare_Opcode` (disasm.c:58): the plain (non-byte-swapped)
bitmask comparison routine. -/
def Compare_Opcode (Bitstream : Nat → Nat) (Bitmask : String) : Nat :=
  Compare_Opcode_go Bitstream Bitmask.toList 0

/-- Loop of `Get_Next_Opcode` (disasm.c:206-215) over the registered
pattern strings, with the running index. The C matcher is entered with the
global scratch in an arbitrary prior state; `Match_Opcode` clears it, so
the model passes the all-zero scratch. -/
def Get_Next_Opcode_go (Bitstream : Nat → Nat) : List String → Nat → Int
  | [], _ => -1
  | p :: rest, i =>
    if (Match_Opcode p Bitstream fun _ => 0).1 = 1 then Int.ofNat i
    else Get_Next_Opcode_go Bitstream rest (i + 1)

/-- Embeds `Get_Next_Opcode` (disasm.c:206): index of the first registered
pattern that matches the stream, `-1` when none does. The registry is
modelled by its list of `Opcode_String` patterns (callbacks and mnemonic
identities are external and not consulted here). -/
def Get_Next_Opcode (ops : List String) (Bitstream : Nat → Nat) : Int :=
  Get_Next_Opcode_go Bitstream ops 0

/-- Loop of `Get_Specifity` (disasm.c:325-334), counting `'0'`/`'1'`
characters. -/
def Get_Specifity_go : List Char → Nat → Nat
  | [], Specifity => Specifity
  | c :: rest, Specifity =>
    if c = '0' ∨ c = '1' then Get_Specifity_go rest (Specifity + 1)
    else Get_Specifity_go rest Specifity

/-- Embeds `Get_Specifity` (disasm.c:325). -/
def Get_Specifity (Opcode : String) : Nat :=
  Get_Specifity_go Opcode.toList 0

/-- Embeds `Comparison` (disasm.c:336): the qsort comparator, reading only
the `Opcode_String` field of the two registry entries. -/
def Comparison (OC1 OC2 : String) : Int :=
  let SP1 := Get_Specifity OC1
  let SP2 := Get_Specifity OC2
  if SP1 < SP2 then 1
  else if SP2 = SP1 then 0
  else -1

/-- The ordering realised by `qsort` with `Comparison` (disasm.c:596):
`a` may be placed before `b` iff the comparator does not require the
opposite order. -/
def CmpLe (a b : String) : Prop :=
  Comparison a b ≤ 0

instance : DecidableRel CmpLe :=
  fun a b => Int.decLe (Comparison a b) 0

/-- Model of `qsort(cx->dis_op, cx->dis_n_ops, ..., Comparison)`
(disasm.c:596): a sort of the registry patterns by the `Comparison`
comparator. -/
def sortOpcodes (ops : List String) : List String :=
  List.insertionSort CmpLe ops

/-- Bounds-instrumented variant of the `Match_Opcode` loop: the byte stream
is the finite supplied buffer, and an access `Bitstream[Byte_Stream]` that
falls outside it yields `none`. The C code performs the access
unconditionally; a `none` result means the C code reads past the end of the
supplied buffer. -/
def Match_loop_ck (Bitmask : String) (Bytes : List Nat) :
    Nat → Nat → (Char → Nat) → Option (Nat × (Char → Nat))
  | 0, _, regs => some (1, regs)
  | steps + 1, i, regs =>
    let Mask_Val := Get_From_Bitmask Bitmask (i / 8) (i % 8)
    match Bytes[(i / 8) ^^^ 1]? with
    | none => none
    | some b =>
      let Stream_Val := (b >>> (7 - i % 8)) &&& 1
      if Mask_Val = '0' ∨ Mask_Val = '1' then
        if Mask_Val = '0' then
          if Stream_Val = 1 then some (0, regs)
          else Match_loop_ck Bitmask Bytes steps (i + 1) regs
        else
          if Stream_Val = 0 then some (0, regs)
          else Match_loop_ck Bitmask Bytes steps (i + 1) regs
      else
        Match_loop_ck Bitmask Bytes steps (i + 1)
          (fun c => if c = Mask_Val then (regs Mask_Val <<< 1) ||| Stream_Val else regs c)

/-- `Match_Opcode` over the finite supplied buffer, `none` when the C code
would access a byte past its end. -/
def Match_Opcode_ck (Bitmask : String) (Bytes : List Nat) (regs : Char → Nat) :
    Option (Nat × (Char → Nat)) :=
  Match_loop_ck Bitmask Bytes (Get_Bitmask_Length Bitmask) 0 (Clear_Registers regs)

/-- One item of pass-2 output (`Disassemble`, disasm.c:244-307). Rendered
text comes from the external callbacks, so an instruction item records the
resolved registry index and consumed byte length; the invalid-opcode
placeholder records exactly the data the `printf` at disasm.c:303 emits:
the two raw bytes (printed high byte first, i.e. the little-endian word
value) and the address. -/
inductive Dis_item where
  | tagData (bytes : Nat)
  | instruction (Opcode : Nat) (len : Nat)
  | invalidWord (hiByte loByte addr : Nat)
deriving DecidableEq

/-- One iteration of the pass-2 loop of `Disassemble` (disasm.c:244-307):
consult the tag-file collaborator (`Tagfile_Process_Data`, modelled by
`tagAdd`); when it consumed bytes, skip them; otherwise resolve an opcode
at `Pos` and either render it (advancing by its pattern byte length) or
emit the invalid-opcode placeholder and advance 2 bytes. Returns the
emitted item and the new cursor. The `% 256` reflects the
`(unsigned char)` casts at disasm.c:303-304. -/
def Disassemble_step (ops : List String) (tagAdd : Nat → Nat)
    (Bitstream : Nat → Nat) (Pos : Nat) : Dis_item × Nat :=
  let Added := tagAdd Pos
  if ¬ Added = 0 then (.tagData Added, Pos + Added)
  else
    let Opcode := Get_Next_Opcode ops (fun i => Bitstream (Pos + i))
    if ¬ Opcode = -1 then
      let len := Get_Bitmask_Length (ops.getD Opcode.toNat "") / 8
      (.instruction Opcode.toNat len, Pos + len)
    else
      (.invalidWord (Bitstream (Pos + 1) % 256) (Bitstream Pos % 256) Pos, Pos + 2)

/-- The consistency check at disasm.c:598-602: every entry of the external
`avr_opcodes` table (modelled by its list of `mnemo` fields) must carry the
mnemonic equal to its own index. -/
def tableOk (table : List Nat) : Bool :=
  (List.range table.length).all (fun i => table.getD i 0 == i)

/-- Control flow of `disasm` (disasm.c:351-606): a requested tag file that
fails to load returns 0 with no output (disasm.c:352-354); a broken
`avr_opcodes` table returns -1 with no output (disasm.c:598-602); otherwise
the run produces the `Disassemble` output. The registry mnemonics
(`registryMnemos`) are in scope, as `cx->dis_op` is in the C code, but the
check never consults them. -/
def disasm (tagfileRequested tagfileOk : Bool) (table : List Nat)
    (registryMnemos : List Nat) (output : List Dis_item) : Int × List Dis_item :=
  if tagfileRequested && !tagfileOk then (0, [])
  else if !(tableOk table) then (-1, [])
  else (0, output)

/-- The significant pattern character consulted for position `i`:
`Match_Opcode` calls `Get_From_Bitmask` with byte `i/8`, bit `i%8`. -/
def maskCharAt (Bitmask : String) (i : Nat) : Char :=
  Get_From_Bitmask Bitmask (i / 8) (i % 8)

/-- The significant positions of the pattern holding character `c`, in
pattern left-to-right order. -/
def sigIndices (Bitmask : String) (c : Char) : List Nat :=
  (List.range (Get_Bitmask_Length Bitmask)).filter
    (fun i => decide (maskCharAt Bitmask i = c))

/-- The value the matcher accumulates for field character `c`: the stream
bits at `c`'s pattern positions, each later occurrence appended as the new
least-significant bit. -/
def fieldValue (Bitmask : String) (Bitstream : Nat → Nat) (c : Char) : Nat :=
  (sigIndices Bitmask c).foldl (fun a i => (a <<< 1) ||| streamBit Bitstream i) 0

/-- A pattern all of whose significant characters are literal bits. -/
def isAllLiteral (Bitmask : String) : Prop :=
  ∀ c ∈ sigChars Bitmask, c = '0' ∨ c = '1'

instance (Bitmask : String) : Decidable (isAllLiteral Bitmask) :=
  List.decidableBAll _ _

/-- A pattern containing a named field character (a significant character
other than the literals `0`/`1` and the wildcard `x`). -/
def containsFieldChar (Bitmask : String) : Prop :=
  ∃ c ∈ sigChars Bitmask, ¬ (c = '0' ∨ c = '1' ∨ c = 'x')

instance (Bitmask : String) : Decidable (containsFieldChar Bitmask) :=
  List.decidableBEx _ _

/-- The 131 patterns registered by `disasm` (disasm.c:393-527) via
`Register_Opcode`, in registration order. -/
def disasm_registry : List String := [
  "0001 11rd  dddd rrrr",
  "0000 11rd  dddd rrrr",
  "1001 0110  KKdd KKKK",
  "0010 00rd  dddd rrrr",
  "0111 KKKK  dddd KKKK",
  "1001 010d  dddd 0101",
  "1001 0100  1sss 1000",
  "1111 100d  dddd 0bbb",
  "1111 01kk  kkkk ksss",
  "1111 00kk  kkkk ksss",
  "1111 01kk  kkkk k000",
  "1111 00kk  kkkk k000",
  "1001 0101  1001 1000",
  "1111 00kk  kkkk k001",
  "1111 01kk  kkkk k100",
  "1111 01kk  kkkk k101",
  "1111 00kk  kkkk k101",
  "1111 01kk  kkkk k111",
  "1111 00kk  kkkk k111",
  "1111 00kk  kkkk k000",
  "1111 00kk  kkkk k100",
  "1111 00kk  kkkk k010",
  "1111 01kk  kkkk k001",
  "1111 01kk  kkkk k010",
  "1111 01kk  kkkk k000",
  "1111 01kk  kkkk k110",
  "1111 00kk  kkkk k110",
  "1111 01kk  kkkk k011",
  "1111 00kk  kkkk k011",
  "1001 0100  0sss 1000",
  "1111 101d  dddd 0bbb",
  "1001 010k  kkkk 111k    kkkk kkkk  kkkk kkkk",
  "1001 1000  AAAA Abbb",
  "1001 0100  1000 1000",
  "1001 0100  1101 1000",
  "1001 0100  1111 1000",
  "1001 0100  1010 1000",
  "1001 0100  1100 1000",
  "1001 0100  1110 1000",
  "1001 0100  1011 1000",
  "1001 0100  1001 1000",
  "1001 010d  dddd 0000",
  "0001 01rd  dddd rrrr",
  "0000 01rd  dddd rrrr",
  "0011 KKKK  dddd KKKK",
  "0001 00rd  dddd rrrr",
  "1001 010d  dddd 1010",
  "1001 0101  0001 1001",
  "1001 0100  0001 1001",
  "1001 0101  1101 1000",
  "1001 000d  dddd 0110",
  "1001 000d  dddd 0111",
  "0010 01rd  dddd rrrr",
  "0000 0011  0ddd 1rrr",
  "0000 0011  1ddd 0rrr",
  "0000 0011  1ddd 1rrr",
  "1001 0101  0000 1001",
  "1001 0100  0000 1001",
  "1011 0AAd  dddd AAAA",
  "1001 010d  dddd 0011",
  "1001 010k  kkkk 110k    kkkk kkkk  kkkk kkkk",
  "1001 000d  dddd 1100",
  "1001 000d  dddd 1101",
  "1001 000d  dddd 1110",
  "1000 000d  dddd 1000",
  "1001 000d  dddd 1001",
  "1001 000d  dddd 1010",
  "10q0 qq0d  dddd 1qqq",
  "1000 000d  dddd 0000",
  "1001 000d  dddd 0001",
  "1001 000d  dddd 0010",
  "10q0 qq0d  dddd 0qqq",
  "1110 KKKK  dddd KKKK",
  "1001 000d  dddd 0000    kkkk kkkk  kkkk kkkk",
  "1001 0101  1100 1000",
  "1001 000d  dddd 0100",
  "1001 000d  dddd 0101",
  "1001 010d  dddd 0110",
  "0010 11rd  dddd rrrr",
  "0000 0001  dddd rrrr",
  "1001 11rd  dddd rrrr",
  "0000 0010  dddd rrrr",
  "0000 0011  0ddd 0rrr",
  "1001 010d  dddd 0001",
  "0000 0000  0000 0000",
  "0010 10rd  dddd rrrr",
  "0110 KKKK  dddd KKKK",
  "1011 1AAr  rrrr AAAA",
  "1001 000d  dddd 1111",
  "1001 001d  dddd 1111",
  "1101 kkkk  kkkk kkkk",
  "1001 0101  0000 1000",
  "1001 0101  0001 1000",
  "1100 kkkk  kkkk kkkk",
  "1001 010d  dddd 0111",
  "0000 10rd  dddd rrrr",
  "0100 KKKK  dddd KKKK",
  "1001 1010  AAAA Abbb",
  "1001 1001  AAAA Abbb",
  "1001 1011  AAAA Abbb",
  "1001 0111  KKdd KKKK",
  "0110 KKKK  dddd KKKK",
  "1111 110r  rrrr 0bbb",
  "1111 111r  rrrr 0bbb",
  "1001 0100  0000 1000",
  "1001 0100  0101 1000",
  "1001 0100  0111 1000",
  "1001 0100  0010 1000",
  "1110 1111  dddd 1111",
  "1001 0100  0100 1000",
  "1001 0100  0110 1000",
  "1001 0100  0011 1000",
  "1001 0100  0001 1000",
  "1001 0101  1000 1000",
  "1001 0101  1110 1000",
  "1001 001r  rrrr 1100",
  "1001 001r  rrrr 1101",
  "1001 001r  rrrr 1110",
  "1000 001r  rrrr 1000",
  "1001 001r  rrrr 1001",
  "1001 001r  rrrr 1010",
  "10q0 qq1r  rrrr 1qqq",
  "1000 001r  rrrr 0000",
  "1001 001r  rrrr 0001",
  "1001 001r  rrrr 0010",
  "10q0 qq1r  rrrr 0qqq",
  "1001 001d  dddd 0000    kkkk kkkk  kkkk kkkk",
  "0001 10rd  dddd rrrr",
  "0101 KKKK  dddd KKKK",
  "1001 010d  dddd 0010",
  "1001 0101  1010 1000"
]

/-- A byte buffer as a stream: bytes past the end read 0. -/
def bytesToStream (l : List Nat) : Nat → Nat :=
  fun i => l.getD i 0

/-- The condition `Match_Opcode` enforces at one significant position: a
literal pattern bit must equal the corresponding stream bit. -/
def litOk (Bitmask : String) (Bitstream : Nat → Nat) (j : Nat) : Prop :=
  (maskCharAt Bitmask j = '0' → streamBit Bitstream j = 0) ∧
  (maskCharAt Bitmask j = '1' → streamBit Bitstream j = 1)

/-- The resolver considers pattern `p` a match for the stream: the C test
`Match_Opcode(..., Bitstream) == 1` at disasm.c:210. -/
def opcodeMatches (Bitstream : Nat → Nat) (p : String) : Prop :=
  (Match_Opcode p Bitstream fun _ => 0).1 = 1

instance (Bitstream : Nat → Nat) (p : String) : Decidable (opcodeMatches Bitstream p) :=
  Nat.decEq _ _

instance : IsTotal String CmpLe :=
  ⟨by
    intro a b
    unfold CmpLe Comparison
    dsimp only
    split_ifs <;> omega⟩

instance : IsTrans String CmpLe :=
  ⟨by
    intro a b c hab hbc
    revert hab hbc
    unfold CmpLe Comparison
    dsimp only
    split_ifs <;> omega⟩

lemma streamBit_lt_two (Bitstream : Nat → Nat) (i : Nat) : streamBit Bitstream i < 2 := by
  unfold streamBit
  rw [Nat.and_one_is_mod]
  omega

lemma Match_loop_succ (Bitmask : String) (Bitstream : Nat → Nat) (n i : Nat)
    (regs : Char → Nat) :
    Match_loop Bitmask Bitstream (n + 1) i regs =
      if maskCharAt Bitmask i = '0' ∨ maskCharAt Bitmask i = '1' then
        if maskCharAt Bitmask i = '0' then
          if streamBit Bitstream i = 1 then (0, regs)
          else Match_loop Bitmask Bitstream n (i + 1) regs
        else
          if streamBit Bitstream i = 0 then (0, regs)
          else Match_loop Bitmask Bitstream n (i + 1) regs
      else
        Match_loop Bitmask Bitstream n (i + 1)
          (fun c =>
            if c = maskCharAt Bitmask i then
              (regs (maskCharAt Bitmask i) <<< 1) ||| streamBit Bitstream i
            else regs c) := rfl

lemma forall_range_succ_split (P : Nat → Prop) (i n : Nat) :
    (∀ j, i ≤ j → j < i + (n + 1) → P j) ↔
      (P i ∧ ∀ j, i + 1 ≤ j → j < i + 1 + n → P j) := by
  constructor
  · intro h
    exact ⟨h i le_rfl (by omega), fun j h1 h2 => h j (by omega) (by omega)⟩
  · rintro ⟨hi, h⟩ j h1 h2
    rcases Nat.eq_or_lt_of_le h1 with rfl | hlt
    · exact hi
    · exact h j (by omega) (by omega)

lemma Match_loop_fst_iff (Bitmask : String) (Bitstream : Nat → Nat) :
    ∀ steps i regs,
      (Match_loop Bitmask Bitstream steps i regs).1 = 1 ↔
        ∀ j, i ≤ j → j < i + steps → litOk Bitmask Bitstream j := by
  intro steps
  induction steps with
  | zero =>
    intro i regs
    simp only [Match_loop]
    constructor
    · intro _ j h1 h2
      exact absurd h2 (by omega)
    · intro _
      trivial
  | succ n ih =>
    intro i regs
    rw [Match_loop_succ, forall_range_succ_split (litOk Bitmask Bitstream) i n]
    by_cases h0 : maskCharAt Bitmask i = '0'
    · rw [if_pos (Or.inl h0), if_pos h0]
      by_cases hs : streamBit Bitstream i = 1
      · rw [if_pos hs]
        constructor
        · intro h
          exact absurd h (by simp)
        · rintro ⟨hi, _⟩
          exact absurd (hi.1 h0) (by omega)
      · rw [if_neg hs]
        rw [ih (i + 1) regs]
        have hlit : litOk Bitmask Bitstream i := by
          refine ⟨fun _ => ?_, fun h1 => ?_⟩
          · have := streamBit_lt_two Bitstream i
            omega
          · rw [h0] at h1
            exact absurd h1 (by decide)
        exact ⟨fun h => ⟨hlit, h⟩, And.right⟩
    · by_cases h1 : maskCharAt Bitmask i = '1'
      · rw [if_pos (Or.inr h1), if_neg h0]
        by_cases hs : streamBit Bitstream i = 0
        · rw [if_pos hs]
          constructor
          · intro h
            exact absurd h (by simp)
          · rintro ⟨hi, _⟩
            exact absurd (hi.2 h1) (by omega)
        · rw [if_neg hs]
          rw [ih (i + 1) regs]
          have hlit : litOk Bitmask Bitstream i := by
            refine ⟨fun h0' => absurd h0' h0, fun _ => ?_⟩
            have := streamBit_lt_two Bitstream i
            omega
          exact ⟨fun h => ⟨hlit, h⟩, And.right⟩
      · rw [if_neg (by tauto)]
        rw [ih (i + 1)]
        have hlit : litOk Bitmask Bitstream i :=
          ⟨fun h0' => absurd h0' h0, fun h1' => absurd h1' h1⟩
        exact ⟨fun h => ⟨hlit, h⟩, And.right⟩

lemma Match_loop_snd_foldl (Bitmask : String) (Bitstream : Nat → Nat) :
    ∀ steps i regs, (Match_loop Bitmask Bitstream steps i regs).1 = 1 →
      ∀ c, ¬ c = '0' → ¬ c = '1' →
        (Match_loop Bitmask Bitstream steps i regs).2 c =
          ((List.range' i steps).filter
              (fun j => decide (maskCharAt Bitmask j = c))).foldl
            (fun a j => (a <<< 1) ||| streamBit Bitstream j) (regs c) := by
  intro steps
  induction steps with
  | zero =>
    intro i regs _ c _ _
    simp [Match_loop, List.range']
  | succ n ih =>
    intro i regs hm c hc0 hc1
    rw [Match_loop_succ] at hm ⊢
    rw [List.range'_succ i n 1, List.filter_cons]
    by_cases h0 : maskCharAt Bitmask i = '0'
    · rw [if_pos (Or.inl h0), if_pos h0] at hm ⊢
      by_cases hs : streamBit Bitstream i = 1
      · rw [if_pos hs] at hm
        exact absurd hm (by simp)
      · rw [if_neg hs] at hm ⊢
        have hne : ¬ maskCharAt Bitmask i = c := fun h => hc0 (h ▸ h0)
        rw [if_neg (by simpa using hne)]
        exact ih (i + 1) regs hm c hc0 hc1
    · by_cases h1 : maskCharAt Bitmask i = '1'
      · rw [if_pos (Or.inr h1), if_neg h0] at hm ⊢
        by_cases hs : streamBit Bitstream i = 0
        · rw [if_pos hs] at hm
          exact absurd hm (by simp)
        · rw [if_neg hs] at hm ⊢
          have hne : ¬ maskCharAt Bitmask i = c := fun h => hc1 (h ▸ h1)
          rw [if_neg (by simpa using hne)]
          exact ih (i + 1) regs hm c hc0 hc1
      · rw [if_neg (by tauto)] at hm ⊢
        by_cases hc : maskCharAt Bitmask i = c
        · rw [if_pos (by simpa using hc)]
          rw [List.foldl_cons]
          have := ih (i + 1)
              (fun c' =>
                if c' = maskCharAt Bitmask i then
                  (regs (maskCharAt Bitmask i) <<< 1) ||| streamBit Bitstream i
                else regs c') hm c hc0 hc1
          rw [this]
          congr 1
          simp [hc]
        · rw [if_neg (by simpa using hc)]
          have := ih (i + 1)
              (fun c' =>
                if c' = maskCharAt Bitmask i then
                  (regs (maskCharAt Bitmask i) <<< 1) ||| streamBit Bitstream i
                else regs c') hm c hc0 hc1
          rw [this]
          congr 1
          have hcc : ¬ c = maskCharAt Bitmask i := fun h => hc h.symm
          simp [hcc]

lemma Get_From_Bitmask_go_eq :
    ∀ (l : List Char) (n : Nat),
      Get_From_Bitmask_go l n = (l.filter (fun c => decide (¬ c = ' '))).getD n '?' := by
  intro l
  induction l with
  | nil =>
    intro n
    simp [Get_From_Bitmask_go]
  | cons c rest ih =>
    intro n
    by_cases hc : c = ' '
    · simp [Get_From_Bitmask_go, hc, ih]
    · cases n with
      | zero => simp [Get_From_Bitmask_go, hc]
      | succ k => simp [Get_From_Bitmask_go, hc, ih]

lemma maskCharAt_eq (Bitmask : String) (i : Nat) :
    maskCharAt Bitmask i = (sigChars Bitmask).getD i '?' := by
  unfold maskCharAt Get_From_Bitmask sigChars
  rw [Get_From_Bitmask_go_eq]
  congr 1
  omega

lemma Get_Specifity_go_eq :
    ∀ (l : List Char) (acc : Nat),
      Get_Specifity_go l acc =
        acc + (l.filter (fun c => decide (c = '0' ∨ c = '1'))).length := by
  intro l
  induction l with
  | nil => intro acc; simp [Get_Specifity_go]
  | cons c rest ih =>
    intro acc
    by_cases h : c = '0' ∨ c = '1'
    · simp [Get_Specifity_go, h, ih]
      omega
    · simp [Get_Specifity_go, h, ih]

lemma CmpLe_iff (a b : String) :
    CmpLe a b ↔ Get_Specifity b ≤ Get_Specifity a := by
  unfold CmpLe Comparison
  dsimp only
  split_ifs <;> omega

lemma Compare_Opcode_go_invalid (Bitstream : Nat → Nat) :
    ∀ (l : List Char) (i : Nat),
      (∃ c ∈ l, ¬ (c = 'x' ∨ c = '1' ∨ c = '0')) →
        Compare_Opcode_go Bitstream l i = 0 := by
  intro l
  induction l with
  | nil =>
    intro i h
    simp at h
  | cons c rest ih =>
    intro i h
    by_cases hbad : ¬ c = 'x' ∧ ¬ c = '1' ∧ ¬ c = '0'
    · simp only [Compare_Opcode_go]
      rw [if_pos hbad]
    · have hvalid : c = 'x' ∨ c = '1' ∨ c = '0' := by tauto
      have hrest : ∃ c' ∈ rest, ¬ (c' = 'x' ∨ c' = '1' ∨ c' = '0') := by
        rcases h with ⟨c', hmem, hbad'⟩
        rcases List.mem_cons.mp hmem with rfl | hmem'
        · exact absurd hvalid hbad'
        · exact ⟨c', hmem', hbad'⟩
      simp only [Compare_Opcode_go]
      rw [if_neg hbad]
      split_ifs <;> first | rfl | exact ih _ hrest

lemma Get_Next_Opcode_go_neg (Bitstream : Nat → Nat) :
    ∀ (l : List String) (i : Nat),
      Get_Next_Opcode_go Bitstream l i = -1 ↔
        ∀ p ∈ l, ¬ (Match_Opcode p Bitstream fun _ => 0).1 = 1 := by
  intro l
  induction l with
  | nil =>
    intro i
    simp [Get_Next_Opcode_go]
  | cons p rest ih =>
    intro i
    simp only [Get_Next_Opcode_go]
    by_cases hp : (Match_Opcode p Bitstream fun _ => 0).1 = 1
    · rw [if_pos hp]
      constructor
      · intro h
        exact absurd h (by simp [Int.ofNat])
      · intro h
        exact absurd hp (h p (by simp))
    · rw [if_neg hp]
      rw [ih (i + 1)]
      constructor
      · intro h q hq
        rcases List.mem_cons.mp hq with rfl | hq'
        · exact hp
        · exact h q hq'
      · intro h q hq
        exact h q (List.mem_cons_of_mem p hq)

lemma Get_Next_Opcode_go_nat (Bitstream : Nat → Nat) :
    ∀ (l : List String) (i k : Nat),
      Get_Next_Opcode_go Bitstream l i = Int.ofNat k ↔
        (i ≤ k ∧ k - i < l.length ∧
          (Match_Opcode (l.getD (k - i) "") Bitstream fun _ => 0).1 = 1 ∧
          ∀ j < k - i, ¬ (Match_Opcode (l.getD j "") Bitstream fun _ => 0).1 = 1) := by
  intro l
  induction l with
  | nil =>
    intro i k
    simp only [Get_Next_Opcode_go, List.length_nil]
    constructor
    · intro h
      exact absurd h (by simp)
    · intro h
      omega
  | cons p rest ih =>
    intro i k
    simp only [Get_Next_Opcode_go]
    by_cases hp : (Match_Opcode p Bitstream fun _ => 0).1 = 1
    · rw [if_pos hp]
      constructor
      · intro h
        have hik : i = k := Int.ofNat.inj h
        subst hik
        refine ⟨le_rfl, by simp, ?_, ?_⟩
        · simpa using hp
        · intro j hj
          omega
      · rintro ⟨h1, _, _, h4⟩
        rcases Nat.eq_or_lt_of_le h1 with rfl | hlt
        · rfl
        · have := h4 0 (by omega)
          rw [List.getD_cons_zero] at this
          exact absurd hp this
    · rw [if_neg hp]
      rw [ih (i + 1) k]
      constructor
      · rintro ⟨h1, h2, h3, h4⟩
        have hki : k - i = (k - (i + 1)) + 1 := by omega
        refine ⟨by omega, by simp; omega, ?_, ?_⟩
        · rw [hki, List.getD_cons_succ]
          exact h3
        · intro j hj
          cases j with
          | zero =>
            rw [List.getD_cons_zero]
            exact hp
          | succ j' =>
            rw [List.getD_cons_succ]
            exact h4 j' (by omega)
      · rintro ⟨h1, h2, h3, h4⟩
        have hne : ¬ i = k := by
          intro hik
          subst hik
          rw [Nat.sub_self, List.getD_cons_zero] at h3
          exact hp h3
        have hki : k - i = (k - (i + 1)) + 1 := by omega
        rw [hki, List.getD_cons_succ] at h3
        refine ⟨by omega, by simp at h2; omega, h3, ?_⟩
        intro j hj
        have := h4 (j + 1) (by omega)
        rw [List.getD_cons_succ] at this
        exact this

lemma Match_Opcode_regs_eq_fieldValue (Bitmask : String) (Bitstream : Nat → Nat)
    (regs : Char → Nat) (c : Char) (hc0 : ¬ c = '0') (hc1 : ¬ c = '1')
    (hm : (Match_Opcode Bitmask Bitstream regs).1 = 1) :
    (Match_Opcode Bitmask Bitstream regs).2 c = fieldValue Bitmask Bitstream c := by
  unfold Match_Opcode at hm ⊢
  rw [Match_loop_snd_foldl Bitmask Bitstream (Get_Bitmask_Length Bitmask) 0
      (Clear_Registers regs) hm c hc0 hc1]
  unfold fieldValue sigIndices Clear_Registers
  rw [List.range_eq_range']

/-- C1: for a pattern of significant (non-space) length a multiple of 8,
`Match_Opcode` reports a match (result 1) iff, at every significant pattern
position `i` holding a literal `'0'` or `'1'`, the stream bit at byte
`(i/8) XOR 1`, bit `7 - i%8` (i.e. `streamBit`), equals that literal.
Field and wildcard positions do not occur in the right-hand side, so they
never affect the boolean result. -/
theorem Match_Opcode_literal_iff (Bitmask : String) (Bitstream : Nat → Nat)
    (regs : Char → Nat) (hL : Get_Bitmask_Length Bitmask % 8 = 0) :
    (Match_Opcode Bitmask Bitstream regs).1 = 1 ↔
      ∀ i < Get_Bitmask_Length Bitmask,
        ((sigChars Bitmask).getD i '?' = '0' → streamBit Bitstream i = 0) ∧
        ((sigChars Bitmask).getD i '?' = '1' → streamBit Bitstream i = 1) := by
  unfold Match_Opcode
  rw [Match_loop_fst_iff]
  constructor
  · intro h i hi
    have := h i (by omega) (by omega)
    unfold litOk at this
    rwa [maskCharAt_eq] at this
  · intro h j h1 h2
    have := h j (by omega)
    unfold litOk
    rwa [maskCharAt_eq]

/-- Witness for `Match_Opcode_literal_iff`: the `adc` pattern against the
word bytes `[0xD1, 0x1C]` satisfies the hypothesis and the literal-bit
condition, so the theorem yields a match. -/
theorem Match_Opcode_literal_iff_witness :
    Get_Bitmask_Length "0001 11rd  dddd rrrr" % 8 = 0 ∧
      (Match_Opcode "0001 11rd  dddd rrrr" (bytesToStream [0xD1, 0x1C]) fun _ => 0).1 = 1 :=
  ⟨by decide,
    (Match_Opcode_literal_iff "0001 11rd  dddd rrrr" (bytesToStream [0xD1, 0x1C])
        (fun _ => 0) (by decide)).mpr (by decide)⟩

/-- C5 counterexample: the pattern `"@@@@ @@@@ @@@@ @@@@"` consists of the
character `'@'`, which is none of `'0'`, `'1'`, `'x'`, or whitespace, yet a
match attempt (`Match_Opcode`, the matcher used by the resolver) returns a
match (1), not a definite non-match. -/
theorem Match_Opcode_invalid_char_matches_cex :
    ('@' ∈ ("@@@@ @@@@ @@@@ @@@@").toList ∧
      ¬ ('@' = '0' ∨ '@' = '1' ∨ '@' = 'x' ∨ '@' = ' ')) ∧
    (Match_Opcode "@@@@ @@@@ @@@@ @@@@" (bytesToStream []) fun _ => 0).1 = 1 ∧
    ¬ (Match_Opcode "@@@@ @@@@ @@@@ @@@@" (bytesToStream []) fun _ => 0).1 = 0 := by
  decide

/-- C5 amended: `Match_Opcode` treats every significant character other
than `'0'`/`'1'` as a field character — a pattern with no literal bits
matches any word (no rejection of invalid characters, no report); only the
separate helper `Compare_Opcode` rejects a pattern containing a character
outside `{x,1,0}`, reporting it and returning a definite non-match (0). -/
theorem Match_nonliteral_never_fails :
    (∀ (Bitmask : String) (Bitstream : Nat → Nat) (regs : Char → Nat),
        (∀ i < Get_Bitmask_Length Bitmask,
            ¬ (sigChars Bitmask).getD i '?' = '0' ∧
            ¬ (sigChars Bitmask).getD i '?' = '1') →
          (Match_Opcode Bitmask Bitstream regs).1 = 1) ∧
    (∀ (Bitstream : Nat → Nat) (Bitmask : String),
        (∃ c ∈ Bitmask.toList, ¬ (c = 'x' ∨ c = '1' ∨ c = '0')) →
          Compare_Opcode Bitstream Bitmask = 0) := by
  constructor
  · intro Bitmask Bitstream regs h
    unfold Match_Opcode
    rw [Match_loop_fst_iff]
    intro j h1 h2
    have := h j (by omega)
    unfold litOk
    rw [maskCharAt_eq]
    exact ⟨fun hh => absurd hh this.1, fun hh => absurd hh this.2⟩
  · intro Bitstream Bitmask h
    unfold Compare_Opcode
    exact Compare_Opcode_go_invalid Bitstream Bitmask.toList 0 h

/-- Witness for `Match_nonliteral_never_fails`: both parts applied at
concrete inputs (an all-`'@'` pattern for the matcher; a pattern containing
`'@'` for `Compare_Opcode`). -/
theorem Match_nonliteral_never_fails_witness :
    (Match_Opcode "@@@@ @@@@ @@@@ @@@@" (bytesToStream []) fun _ => 0).1 = 1 ∧
      Compare_Opcode (bytesToStream []) "01@0" = 0 :=
  ⟨Match_nonliteral_never_fails.1 "@@@@ @@@@ @@@@ @@@@" (bytesToStream [])
      (fun _ => 0) (by decide),
    Match_nonliteral_never_fails.2 (bytesToStream []) "01@0" (by decide)⟩

/-- C6 counterexample: in the pattern `"0001 11rd  dddd rrrr"` the field
character `'r'` occupies 5 significant positions (one in `11rd` and four in
`rrrr`), not 4; the match against bytes `[0b11010001, 0b00011100]` does
succeed. -/
theorem Match_Opcode_adc_field_width_cex :
    (Match_Opcode "0001 11rd  dddd rrrr" (bytesToStream [0b11010001, 0b00011100])
        fun _ => 0).1 = 1 ∧
    (sigIndices "0001 11rd  dddd rrrr" 'd').length = 5 ∧
    (sigIndices "0001 11rd  dddd rrrr" 'r').length = 5 ∧
    ¬ (sigIndices "0001 11rd  dddd rrrr" 'r').length = 4 := by
  decide

/-- C6 amended: the scratch is reset before each match attempt (the result
is independent of the prior scratch); on a successful match every
non-literal character's accumulator equals its pattern bits assembled in
pattern left-to-right order with each later occurrence as the new
least-significant bit (`fieldValue`); in the scenario pattern
`"0001 11rd  dddd rrrr"` against bytes `[0b11010001, 0b00011100]` the match
succeeds and fields `d` and `r` accumulate 5 bits each (values 13 and 1). -/
theorem Match_Opcode_field_accumulation :
    (∀ (Bitmask : String) (Bitstream : Nat → Nat) (regs1 regs2 : Char → Nat),
        Match_Opcode Bitmask Bitstream regs1 = Match_Opcode Bitmask Bitstream regs2) ∧
    (∀ (Bitmask : String) (Bitstream : Nat → Nat) (regs : Char → Nat) (c : Char),
        ¬ c = '0' → ¬ c = '1' → (Match_Opcode Bitmask Bitstream regs).1 = 1 →
          (Match_Opcode Bitmask Bitstream regs).2 c = fieldValue Bitmask Bitstream c) ∧
    ((Match_Opcode "0001 11rd  dddd rrrr" (bytesToStream [0b11010001, 0b00011100])
          fun _ => 0).1 = 1 ∧
      (Match_Opcode "0001 11rd  dddd rrrr" (bytesToStream [0b11010001, 0b00011100])
          fun _ => 0).2 'd' = 13 ∧
      (Match_Opcode "0001 11rd  dddd rrrr" (bytesToStream [0b11010001, 0b00011100])
          fun _ => 0).2 'r' = 1 ∧
      (sigIndices "0001 11rd  dddd rrrr" 'd').length = 5 ∧
      (sigIndices "0001 11rd  dddd rrrr" 'r').length = 5) := by
  refine ⟨fun _ _ _ _ => rfl, ?_, by decide⟩
  intro Bitmask Bitstream regs c hc0 hc1 hm
  exact Match_Opcode_regs_eq_fieldValue Bitmask Bitstream regs c hc0 hc1 hm

/-- Witness for `Match_Opcode_field_accumulation`: the accumulation clause
applied to field `'d'` of the scenario match. -/
theorem Match_Opcode_field_accumulation_witness :
    (Match_Opcode "0001 11rd  dddd rrrr" (bytesToStream [0b11010001, 0b00011100])
        fun _ => 0).2 'd' =
      fieldValue "0001 11rd  dddd rrrr" (bytesToStream [0b11010001, 0b00011100]) 'd' :=
  Match_Opcode_field_accumulation.2.1 "0001 11rd  dddd rrrr"
    (bytesToStream [0b11010001, 0b00011100]) (fun _ => 0) 'd'
    (by decide) (by decide) (by decide)

/-- C10: on a successful match, the wildcard character `'x'` is handled
exactly like a named field character: the stream bits at the `'x'`
positions are accumulated into the scratch entry keyed by `'x'`
(`fieldValue`), not skipped. -/
theorem Match_Opcode_wildcard_stored (Bitmask : String) (Bitstream : Nat → Nat)
    (regs : Char → Nat) (hx : 'x' ∈ Bitmask.toList)
    (hm : (Match_Opcode Bitmask Bitstream regs).1 = 1) :
    (Match_Opcode Bitmask Bitstream regs).2 'x' = fieldValue Bitmask Bitstream 'x' ∧
      ∀ c, ¬ c = '0' → ¬ c = '1' →
        (Match_Opcode Bitmask Bitstream regs).2 c = fieldValue Bitmask Bitstream c :=
  ⟨Match_Opcode_regs_eq_fieldValue Bitmask Bitstream regs 'x' (by decide) (by decide) hm,
    fun c hc0 hc1 => Match_Opcode_regs_eq_fieldValue Bitmask Bitstream regs c hc0 hc1 hm⟩

/-- Witness for `Match_Opcode_wildcard_stored`: pattern `"0000 xxxx"`
against byte `0x0F` in stream byte 1 matches and stores 15 in the scratch
entry for `'x'`. -/
theorem Match_Opcode_wildcard_stored_witness :
    ('x' ∈ ("0000 xxxx").toList ∧
      (Match_Opcode "0000 xxxx" (bytesToStream [0, 0x0F]) fun _ => 0).1 = 1) ∧
    ((Match_Opcode "0000 xxxx" (bytesToStream [0, 0x0F]) fun _ => 0).2 'x' =
        fieldValue "0000 xxxx" (bytesToStream [0, 0x0F]) 'x' ∧
      fieldValue "0000 xxxx" (bytesToStream [0, 0x0F]) 'x' = 15) :=
  ⟨⟨by decide, by decide⟩,
    (Match_Opcode_wildcard_stored "0000 xxxx" (bytesToStream [0, 0x0F]) (fun _ => 0)
        (by decide) (by decide)).1,
    by decide⟩

/-- C2: `Get_Next_Opcode` linearly scans the registry and returns the index
of the first entry whose pattern matches the stream, and `-1` when no
registered pattern matches; in the scenario of an all-literal entry
(specificity 16) and a 10-literal-bit entry both matching the same bytes,
the sorted registry places the all-literal entry first and the resolver
returns it (index 0). -/
theorem Get_Next_Opcode_first_match :
    (∀ (ops : List String) (Bitstream : Nat → Nat),
        Get_Next_Opcode ops Bitstream = -1 ↔ ∀ p ∈ ops, ¬ opcodeMatches Bitstream p) ∧
    (∀ (ops : List String) (Bitstream : Nat → Nat) (k : Nat),
        Get_Next_Opcode ops Bitstream = Int.ofNat k ↔
          (k < ops.length ∧ opcodeMatches Bitstream (ops.getD k "") ∧
            ∀ j < k, ¬ opcodeMatches Bitstream (ops.getD j ""))) ∧
    (sortOpcodes ["1111 0100  kkkk kk00", "1111 0100  0000 0000"] =
        ["1111 0100  0000 0000", "1111 0100  kkkk kk00"] ∧
      Get_Specifity "1111 0100  0000 0000" = 16 ∧
      Get_Specifity "1111 0100  kkkk kk00" = 10 ∧
      opcodeMatches (bytesToStream [0x00, 0xF4]) "1111 0100  0000 0000" ∧
      opcodeMatches (bytesToStream [0x00, 0xF4]) "1111 0100  kkkk kk00" ∧
      Get_Next_Opcode (sortOpcodes ["1111 0100  kkkk kk00", "1111 0100  0000 0000"])
          (bytesToStream [0x00, 0xF4]) = Int.ofNat 0 ∧
      (sortOpcodes ["1111 0100  kkkk kk00", "1111 0100  0000 0000"]).getD 0 "" =
        "1111 0100  0000 0000") := by
  refine ⟨?_, ?_, by decide⟩
  · intro ops Bitstream
    exact Get_Next_Opcode_go_neg Bitstream ops 0
  · intro ops Bitstream k
    unfold Get_Next_Opcode opcodeMatches
    have := Get_Next_Opcode_go_nat Bitstream ops 0 k
    simpa using this

/-- Witness for `Get_Next_Opcode_first_match`: the no-match clause applied
to the one-entry `nop` registry on an all-ones word. -/
theorem Get_Next_Opcode_first_match_witness :
    Get_Next_Opcode ["0000 0000  0000 0000"] (bytesToStream [0xFF, 0xFF]) = -1 :=
  (Get_Next_Opcode_first_match.1 ["0000 0000  0000 0000"]
      (bytesToStream [0xFF, 0xFF])).mpr (by decide)

set_option maxRecDepth 16384 in
/-- C3: `Get_Specifity` returns exactly the count of `'0'`/`'1'` characters
of the pattern; the sorted registry is ordered by non-increasing
specificity; in the registry built by `disasm` every all-literal pattern
has specificity 16 while every pattern with a field character has
specificity below 16, so after sorting any registry with these properties
every all-literal entry is placed before every entry containing field
characters. -/
theorem Get_Specifity_sort :
    (∀ p : String,
        Get_Specifity p = (p.toList.filter (fun c => decide (c = '0' ∨ c = '1'))).length) ∧
    (∀ ops : List String,
        (sortOpcodes ops).Pairwise (fun a b => Get_Specifity b ≤ Get_Specifity a)) ∧
    (∀ p ∈ disasm_registry,
        (isAllLiteral p → Get_Specifity p = 16) ∧
        (containsFieldChar p → Get_Specifity p < 16)) ∧
    (∀ ops : List String,
        (∀ p ∈ ops, isAllLiteral p → Get_Specifity p = 16) →
        (∀ p ∈ ops, containsFieldChar p → Get_Specifity p < 16) →
        ∀ a b : Nat, a < (sortOpcodes ops).length → b < (sortOpcodes ops).length →
          isAllLiteral ((sortOpcodes ops).getD a "") →
          containsFieldChar ((sortOpcodes ops).getD b "") → a < b) := by
  refine ⟨?_, ?_, by decide, ?_⟩
  · intro p
    unfold Get_Specifity
    rw [Get_Specifity_go_eq]
    omega
  · intro ops
    have hs : (sortOpcodes ops).Sorted CmpLe := List.sorted_insertionSort CmpLe ops
    exact hs.imp (fun hab => (CmpLe_iff _ _).mp hab)
  · intro ops hA hF a b ha hb hall hfield
    by_contra hab
    push_neg at hab
    rcases Nat.eq_or_lt_of_le hab with heq | hlt
    · subst heq
      rcases hfield with ⟨c, hc, hbad⟩
      rcases hall c hc with h | h
      · exact hbad (Or.inl h)
      · exact hbad (Or.inr (Or.inl h))
    · have hs : (sortOpcodes ops).Sorted CmpLe := List.sorted_insertionSort CmpLe ops
      rw [List.getD_eq_getElem _ _ ha] at hall
      rw [List.getD_eq_getElem _ _ hb] at hfield
      have hget : CmpLe ((sortOpcodes ops)[b]) ((sortOpcodes ops)[a]) := by
        have hg := List.pairwise_iff_get.mp hs ⟨b, hb⟩ ⟨a, ha⟩ (Fin.mk_lt_mk.mpr hlt)
        simpa using hg
      rw [CmpLe_iff] at hget
      have hperm : (sortOpcodes ops).Perm ops := List.perm_insertionSort CmpLe ops
      have hmema : (sortOpcodes ops)[a] ∈ ops := hperm.mem_iff.mp (List.getElem_mem ha)
      have hmemb : (sortOpcodes ops)[b] ∈ ops := hperm.mem_iff.mp (List.getElem_mem hb)
      have h16 := (hA _ hmema) hall
      have hlt16 := (hF _ hmemb) hfield
      omega

/-- Witness for `Get_Specifity_sort`: on a two-entry registry with one
all-literal and one field pattern, the placement clause applies with all
hypotheses discharged concretely. -/
theorem Get_Specifity_sort_witness :
    (isAllLiteral ((sortOpcodes ["0001 11rd  dddd rrrr", "0000 0000  0000 0000"]).getD 0 "") ∧
      containsFieldChar
        ((sortOpcodes ["0001 11rd  dddd rrrr", "0000 0000  0000 0000"]).getD 1 "")) ∧
    (0 : Nat) < 1 :=
  ⟨⟨by decide, by decide⟩,
    Get_Specifity_sort.2.2.2 ["0001 11rd  dddd rrrr", "0000 0000  0000 0000"]
      (by decide) (by decide) 0 1 (by decide) (by decide) (by decide) (by decide)⟩

/-- C7: in pass 2, at a position the tag collaborator does not claim and at
which no registered opcode resolves, the driver emits the invalid-opcode
placeholder carrying the two raw word bytes and the address, and advances
the cursor by exactly 2 bytes — in particular the cursor strictly
increases, so the loop makes forward progress and no abort path exists. -/
theorem Disassemble_step_invalid (ops : List String) (tagAdd Bitstream : Nat → Nat)
    (Pos : Nat) (htag : tagAdd Pos = 0)
    (hres : Get_Next_Opcode ops (fun i => Bitstream (Pos + i)) = -1) :
    Disassemble_step ops tagAdd Bitstream Pos =
      (Dis_item.invalidWord (Bitstream (Pos + 1) % 256) (Bitstream Pos % 256) Pos,
        Pos + 2) ∧
    Pos < (Disassemble_step ops tagAdd Bitstream Pos).2 := by
  have hstep : Disassemble_step ops tagAdd Bitstream Pos =
      (Dis_item.invalidWord (Bitstream (Pos + 1) % 256) (Bitstream Pos % 256) Pos,
        Pos + 2) := by
    unfold Disassemble_step
    simp [htag, hres]
  exact ⟨hstep, by rw [hstep]; omega⟩

/-- Witness for `Disassemble_step_invalid`: a registry holding only the
`nop` pattern against an all-ones word; no opcode resolves, the placeholder
is emitted and the cursor moves from 0 to 2. -/
theorem Disassemble_step_invalid_witness :
    ((fun _ => (0 : Nat)) 0 = 0 ∧
      Get_Next_Opcode ["0000 0000  0000 0000"]
          (fun i => bytesToStream [0xFF, 0xFF] (0 + i)) = -1) ∧
    Disassemble_step ["0000 0000  0000 0000"] (fun _ => 0)
        (bytesToStream [0xFF, 0xFF]) 0 =
      (Dis_item.invalidWord 255 255 0, 2) :=
  ⟨⟨rfl, by decide⟩,
    (Disassemble_step_invalid ["0000 0000  0000 0000"] (fun _ => 0)
        (bytesToStream [0xFF, 0xFF]) 0 rfl (by decide)).1⟩

/-- C8: with only the 2 bytes `[0x0E, 0x94]` supplied (a truncated CALL at
the final position), the bounds-instrumented matcher reports an access past
the buffer end (`none`); the C matcher, which reads unconditionally,
matches the 32-bit (two-word) CALL pattern and the driver advances 4 bytes,
not the 2-byte skip path; the scratch value accumulated for `'k'` depends
on the bytes beyond the supplied buffer (two streams agreeing on the 2
supplied bytes yield different field values). -/
theorem Disassemble_truncated_call_oob :
    (Match_Opcode_ck "1001 010k  kkkk 111k    kkkk kkkk  kkkk kkkk" [0x0E, 0x94]
        fun _ => 0).isNone = true ∧
    (Match_Opcode "1001 010k  kkkk 111k    kkkk kkkk  kkkk kkkk"
        (bytesToStream [0x0E, 0x94]) fun _ => 0).1 = 1 ∧
    (Disassemble_step ["1001 010k  kkkk 111k    kkkk kkkk  kkkk kkkk"] (fun _ => 0)
        (bytesToStream [0x0E, 0x94]) 0).2 = 4 ∧
    ¬ (Disassemble_step ["1001 010k  kkkk 111k    kkkk kkkk  kkkk kkkk"] (fun _ => 0)
        (bytesToStream [0x0E, 0x94]) 0).2 = 0 + 2 ∧
    (bytesToStream [0x0E, 0x94] 0 = bytesToStream [0x0E, 0x94, 0xFF, 0xFF] 0 ∧
      bytesToStream [0x0E, 0x94] 1 = bytesToStream [0x0E, 0x94, 0xFF, 0xFF] 1) ∧
    ¬ (Match_Opcode "1001 010k  kkkk 111k    kkkk kkkk  kkkk kkkk"
          (bytesToStream [0x0E, 0x94]) fun _ => 0).2 'k' =
        (Match_Opcode "1001 010k  kkkk 111k    kkkk kkkk  kkkk kkkk"
          (bytesToStream [0x0E, 0x94, 0xFF, 0xFF]) fun _ => 0).2 'k' := by
  decide

/-- C9 counterexample: (1) a requested tag file that fails to load stops
the run with no output even though the table consistency check passes, so
the check is not the only aborting condition; (2) a registry whose mnemonic
identities `[7, 7]` are not a permutation of the table `[0, 1]` does not
stop the run — output is still produced — so no registry-vs-table
permutation check exists. -/
theorem disasm_abort_conditions_cex :
    (disasm true false [0, 1] [7] [Dis_item.tagData 1] = (0, []) ∧
      tableOk [0, 1] = true) ∧
    (disasm false true [0, 1] [7, 7] [Dis_item.tagData 1] =
        (0, [Dis_item.tagData 1]) ∧
      ¬ List.Perm [7, 7] [0, 1]) := by
  refine ⟨⟨by decide, by decide⟩, by decide, ?_⟩
  intro h
  have h7 : (0 : Nat) ∈ [7, 7] := h.symm.subset (by simp)
  simp at h7

/-- C9 amended: `disasm` stops early with no output in exactly two cases —
a requested tag file that fails to load (returns 0), and the once-run check
that the external `avr_opcodes` table is identity-indexed (returns -1);
when neither triggers, the `Disassemble` output is produced. The check
reads only the external table, never the registry. -/
theorem disasm_control_flow (tagfileRequested tagfileOk : Bool)
    (table registryMnemos : List Nat) (output : List Dis_item) :
    (tagfileRequested = true → tagfileOk = false →
      disasm tagfileRequested tagfileOk table registryMnemos output = (0, [])) ∧
    ((tagfileRequested = false ∨ tagfileOk = true) → tableOk table = false →
      disasm tagfileRequested tagfileOk table registryMnemos output = (-1, [])) ∧
    ((tagfileRequested = false ∨ tagfileOk = true) → tableOk table = true →
      disasm tagfileRequested tagfileOk table registryMnemos output = (0, output)) := by
  refine ⟨?_, ?_, ?_⟩ <;> unfold disasm
  · rintro rfl rfl
    simp
  · rintro (rfl | rfl) htab <;> simp [htab]
  · rintro (rfl | rfl) htab <;> simp [htab]

/-- Witness for `disasm_control_flow`: with no tag file and a consistent
one-entry table, the run produces its output unchanged. -/
theorem disasm_control_flow_witness :
    tableOk [0] = true ∧
      disasm false true [0] [] [Dis_item.tagData 4] = (0, [Dis_item.tagData 4]) :=
  ⟨by decide,
    (disasm_control_flow false true [0] [] [Dis_item.tagData 4]).2.2
      (Or.inl rfl) (by decide)⟩
